import Mathlib

/-!
# Verification of `src/sportsbet/soccer/optimization.py`

Shallow embedding of the `SeasonTimeSeriesSplit` cross-validator and of the
`BettingAgent` backtesting / capital-simulation routines, together with
theorems about temporal separation of the generated folds, the agreement of
`get_n_splits` with `split`, the expanding-window structure, and the staking
invariants of `calculate_backtest_stats`.

Modelling conventions:
* the input table `X` is a `List (List Int)`; only its day column `X[:, 0]`
  and its number of rows matter to the splitter;
* money amounts (`capital`, `bet_amount`, profits, scores) are rationals;
* the external collaborators `total_profit_score` and `precision_score` are
  opaque function parameters (`tps`, `prec`);
* a raised exception is modelled as `Except.error ()`; in particular the
  `IndexError` raised by `season_indices[0]` on an empty season window;
* `np.nan` for the precision of a zero-bet fold is modelled as `none`.
-/

namespace SportsBet

/-- The day column of the input table: `self.days_ = X[:, 0]`. -/
def days (X : List (List Int)) : List Int :=
  X.map (fun row => row.getD 0 0)

/-- `SeasonTimeSeriesSplit._generate_season_indices`: the positions whose day lies
in the season window `[365 * (test_year - 1), 365 * test_year)`, in ascending
order: `indices[(self.days_ >= start_day) & (self.days_ < end_day)]`. -/
def seasonIndices (X : List (List Int)) (testYear : Int) : List Nat :=
  (List.range X.length).filter (fun i =>
    decide (365 * (testYear - 1) ≤ (days X).getD i 0) &&
    decide ((days X).getD i 0 < 365 * testYear))

/-- The day of position `i` lies in the season window of `testYear`. -/
def inWindow (X : List (List Int)) (testYear : Int) (i : Nat) : Prop :=
  365 * (testYear - 1) ≤ (days X).getD i 0 ∧ (days X).getD i 0 < 365 * testYear

instance (X : List (List Int)) (testYear : Int) (i : Nat) :
    Decidable (inWindow X testYear i) := by
  unfold inWindow; infer_instance

/-- Loop body of `SeasonTimeSeriesSplit.split`: walk the season indices keeping
the window anchor `start_ind`; whenever
`self.days_[ind] - self.days_[start_ind] >= self.max_day_range`, yield
`(np.arange(0, start_ind), np.arange(start_ind, ind))` and set `start_ind = ind`. -/
def splitAux (ds : List Int) (maxDayRange : Int) :
    List Nat → Nat → List (List Nat × List Nat)
  | [], _ => []
  | i :: rest, startInd =>
    if maxDayRange ≤ ds.getD i 0 - ds.getD startInd 0 then
      (List.range startInd, (List.range (i - startInd)).map (fun k => k + startInd)) ::
        splitAux ds maxDayRange rest i
    else
      splitAux ds maxDayRange rest startInd

/-- `SeasonTimeSeriesSplit.split`, materialized (the Python generator is consumed
into a list by every caller in this module).  `Except.error ()` models the
`IndexError` raised by `season_indices[0]` when the season window is empty. -/
def split (X : List (List Int)) (testYear maxDayRange : Int) :
    Except Unit (List (List Nat × List Nat)) :=
  match seasonIndices X testYear with
  | [] => .error ()
  | s0 :: rest => .ok (splitAux (days X) maxDayRange (s0 :: rest) s0)

/-- Counting loop of `SeasonTimeSeriesSplit.get_n_splits`: the same walk as
`splitAux`, incrementing `n_splits` instead of yielding a pair. -/
def countAux (ds : List Int) (maxDayRange : Int) : List Nat → Nat → Nat
  | [], _ => 0
  | i :: rest, startInd =>
    if maxDayRange ≤ ds.getD i 0 - ds.getD startInd 0 then
      countAux ds maxDayRange rest i + 1
    else
      countAux ds maxDayRange rest startInd

/-- `SeasonTimeSeriesSplit.get_n_splits`; it performs the same
`season_indices[0]` access as `split`, hence the same error on an empty
season window. -/
def get_n_splits (X : List (List Int)) (testYear maxDayRange : Int) :
    Except Unit Nat :=
  match seasonIndices X testYear with
  | [] => .error ()
  | s0 :: rest => .ok (countAux (days X) maxDayRange (s0 :: rest) s0)

/-- `BettingAgent.backtest`, with the data-loading, estimator and progress-bar
collaborators abstracted: `est train_indices test_indices` stands for
`ProfitEstimator(...).fit(X_train, y_train, **fit_params).predict(X_test)`, and
the progress bar is purely observational (a no-op here).  The fold results
`(y_test, y_pred)` are accumulated in order into `backtest_results_`. -/
def backtest (est : List Nat → List Nat → List ℚ) (X : List (List Int))
    (y : List Int) (testYear maxDayRange : Int) :
    Except Unit (List (List Int × List ℚ)) :=
  (split X testYear maxDayRange).map (fun indices =>
    indices.map (fun p => (p.2.map (fun i => y.getD i 0), est p.1 p.2)))

/-- One row of the statistics table produced by
`BettingAgent.calculate_backtest_stats`:
`(capital, profit, bet_amount, n_bets, n_matches, precision)`. -/
structure StatRow where
  capital : ℚ
  profit : ℚ
  betAmount : ℚ
  nBets : Int
  nMatches : Nat
  precision : Option ℚ
  deriving DecidableEq

/-- One iteration of the loop in `BettingAgent.calculate_backtest_stats`,
mapping the carried state `(capital, bet_amount)` and one fold result
`(y_test, y_pred)` to the emitted row and the updated state. -/
def foldStep (tps : List Int → List ℚ → ℚ) (prec : List Int → List Int → ℚ)
    (betFactor : ℚ) (creditExponent : Nat)
    (st : ℚ × ℚ) (fold : List Int × List ℚ) : StatRow × ℚ × ℚ :=
  -- y_pred_bin = (y_pred > 0).astype(int)
  let yPredBin : List Int := fold.2.map (fun s => if 0 < s then 1 else 0)
  -- n_bets = y_pred_bin.sum(); n_matches = y_pred.size
  let nBets : Int := yPredBin.sum
  let nMatches : Nat := fold.2.length
  -- precision = precision_score(y_test, y_pred_bin) if n_bets > 0 else np.nan
  let precision : Option ℚ := if 0 < nBets then some (prec fold.1 yPredBin) else none
  -- profit = bet_amount * total_profit_score(y_test, y_pred) / n_bets if n_bets > 0 else 0.0
  let profit : ℚ := if 0 < nBets then st.2 * tps fold.1 fold.2 / (nBets : ℚ) else 0
  -- capital += profit
  let capital : ℚ := st.1 + profit
  -- bet_amount = bet_amount * bet_factor if profit < 0.0 else 1.0
  let betAmount : ℚ := if profit < 0 then st.2 * betFactor else 1
  -- max_credit = capital + bet_factor ** credit_exponent; clamp if exceeded
  let maxCredit : ℚ := capital + betFactor ^ creditExponent
  let betAmount : ℚ := if maxCredit < betAmount then maxCredit else betAmount
  (⟨capital, profit, betAmount, nBets, nMatches, precision⟩, capital, betAmount)

/-- The statistics loop of `BettingAgent.calculate_backtest_stats`: threads
`(capital, bet_amount)` over the fold results in order, prepends each fold's
arrays to the accumulators (`np.hstack((y_test, y_test_all))` puts the new
fold first), emits one row per processed fold, and stops after the first row
whose post-clamp `bet_amount` equals `0`.  Returns
`(statistics, y_test_all, y_pred_all)`. -/
def statsLoop (tps : List Int → List ℚ → ℚ) (prec : List Int → List Int → ℚ)
    (betFactor : ℚ) (creditExponent : Nat) :
    List (List Int × List ℚ) → ℚ × ℚ → List Int → List ℚ →
    List StatRow × List Int × List ℚ
  | [], _, yAll, pAll => ([], yAll, pAll)
  | fold :: rest, st, yAll, pAll =>
    let r := foldStep tps prec betFactor creditExponent st fold
    if r.1.betAmount = 0 then
      ([r.1], fold.1 ++ yAll, fold.2 ++ pAll)
    else
      let t := statsLoop tps prec betFactor creditExponent rest r.2
        (fold.1 ++ yAll) (fold.2 ++ pAll)
      (r.1 :: t.1, t.2)

/-- The results of `BettingAgent.calculate_backtest_stats`: the statistics
rows, the concatenated test labels and predictions, and the two aggregate
attributes `profit_per_bet_` and `precision_` (the `np.nanmean` of the
defined per-fold precisions; `none` when no precision is defined). -/
structure BacktestStats where
  rows : List StatRow
  yTestAll : List Int
  yPredAll : List ℚ
  profitPerBet : ℚ
  meanPrecision : Option ℚ

/-- `BettingAgent.calculate_backtest_stats`, starting from
`capital = 1.0, bet_amount = 1.0` and empty accumulators.
`profit_per_bet_ = total_profit_score(y_test_all, y_pred_all) / y_pred_all.size`
is an unguarded division; with rational arithmetic `x / 0 = 0`, where NumPy
would emit a division-by-zero `nan`, so the divisor is recorded in the
embedding exactly as computed. -/
def calculate_backtest_stats (tps : List Int → List ℚ → ℚ)
    (prec : List Int → List Int → ℚ)
    (backtestResults : List (List Int × List ℚ))
    (betFactor : ℚ) (creditExponent : Nat) : BacktestStats :=
  let t := statsLoop tps prec betFactor creditExponent backtestResults (1, 1) [] []
  let defined := (t.1.map StatRow.precision).filterMap id
  { rows := t.1
    yTestAll := t.2.1
    yPredAll := t.2.2
    profitPerBet := tps t.2.1 t.2.2 / ((t.2.2.length : ℚ))
    meanPrecision :=
      if defined.length = 0 then none
      else some (defined.sum / (defined.length : ℚ)) }

/-- The `(capital, bet_amount)` state reached after processing a list of fold
results (the pure state threading of the loop, without the ruin break); used
to speak about the post-clamp `bet_amount` "while processing fold k". -/
def stateAfter (tps : List Int → List ℚ → ℚ) (prec : List Int → List Int → ℚ)
    (betFactor : ℚ) (creditExponent : Nat)
    (folds : List (List Int × List ℚ)) : ℚ × ℚ :=
  folds.foldl (fun st fold => (foldStep tps prec betFactor creditExponent st fold).2) (1, 1)

/-! ## Basic lemmas about the embedding -/

lemma days_length (X : List (List Int)) : (days X).length = X.length := by
  simp [days]

lemma mem_seasonIndices {X : List (List Int)} {testYear : Int} {i : Nat} :
    i ∈ seasonIndices X testYear ↔ i < X.length ∧ inWindow X testYear i := by
  simp [seasonIndices, List.mem_filter, List.mem_range, inWindow, and_assoc]

lemma seasonIndices_sorted (X : List (List Int)) (testYear : Int) :
    List.Pairwise (· < ·) (seasonIndices X testYear) :=
  (List.pairwise_lt_range _).filter _

lemma chain_le_getD {ds : List Int} (hc : List.Chain' (· ≤ ·) ds) :
    ∀ i j, i ≤ j → j < ds.length → ds.getD i 0 ≤ ds.getD j 0 := by
  intro i j hij hj
  rcases Nat.eq_or_lt_of_le hij with h | h
  · subst h; exact le_refl _
  · have hp := (List.chain'_iff_pairwise).1 hc
    have := List.pairwise_iff_getElem.1 hp i j (lt_trans h hj) hj h
    rw [List.getD_eq_getElem _ _ (lt_trans h hj), List.getD_eq_getElem _ _ hj]
    exact this

lemma countAux_eq_length (ds : List Int) (mdr : Int) :
    ∀ inds startInd, countAux ds mdr inds startInd = (splitAux ds mdr inds startInd).length
  | [], _ => rfl
  | i :: rest, startInd => by
    unfold countAux splitAux
    by_cases hif : mdr ≤ ds.getD i 0 - ds.getD startInd 0
    · rw [if_pos hif, if_pos hif, List.length_cons,
        countAux_eq_length ds mdr rest i]
    · rw [if_neg hif, if_neg hif]
      exact countAux_eq_length ds mdr rest startInd

lemma foldStep_betAmount_eq (tps : List Int → List ℚ → ℚ)
    (prec : List Int → List Int → ℚ) (bf : ℚ) (ce : ℕ) (st : ℚ × ℚ)
    (fold : List Int × List ℚ) :
    (foldStep tps prec bf ce st fold).1.betAmount =
      (foldStep tps prec bf ce st fold).2.2 := rfl

lemma ite_clamp_le (a b : ℚ) : (if a < b then a else b) ≤ a := by
  split_ifs with h
  · exact le_refl a
  · exact le_of_not_lt h

lemma foldStep_bet_le (tps : List Int → List ℚ → ℚ)
    (prec : List Int → List Int → ℚ) (bf : ℚ) (ce : ℕ) (st : ℚ × ℚ)
    (fold : List Int × List ℚ) :
    (foldStep tps prec bf ce st fold).1.betAmount ≤
      (foldStep tps prec bf ce st fold).1.capital + bf ^ ce := by
  simp only [foldStep]
  exact ite_clamp_le _ _

lemma statsLoop_bet_le (tps : List Int → List ℚ → ℚ)
    (prec : List Int → List Int → ℚ) (bf : ℚ) (ce : ℕ) :
    ∀ folds (st : ℚ × ℚ) (yAll : List Int) (pAll : List ℚ),
      ∀ row ∈ (statsLoop tps prec bf ce folds st yAll pAll).1,
        row.betAmount ≤ row.capital + bf ^ ce := by
  intro folds
  induction folds with
  | nil => intro st yAll pAll row hrow; simp [statsLoop] at hrow
  | cons fold rest ih =>
    intro st yAll pAll row hrow
    simp only [statsLoop] at hrow
    split at hrow
    · rcases List.mem_singleton.1 hrow with rfl
      exact foldStep_bet_le tps prec bf ce st fold
    · rcases List.mem_cons.1 hrow with rfl | hmem
      · exact foldStep_bet_le tps prec bf ce st fold
      · exact ih _ _ _ row hmem

lemma statsLoop_length_of_ruin (tps : List Int → List ℚ → ℚ)
    (prec : List Int → List Int → ℚ) (bf : ℚ) (ce : ℕ) :
    ∀ folds (k : ℕ) (st : ℚ × ℚ) (yAll : List Int) (pAll : List ℚ),
      1 ≤ k → k ≤ folds.length →
      ((folds.take k).foldl (fun s f => (foldStep tps prec bf ce s f).2) st).2 = 0 →
      (∀ j, 1 ≤ j → j < k →
        ((folds.take j).foldl (fun s f => (foldStep tps prec bf ce s f).2) st).2 ≠ 0) →
      (statsLoop tps prec bf ce folds st yAll pAll).1.length = k := by
  intro folds
  induction folds with
  | nil =>
    intro k st yAll pAll hk hlen _ _
    simp only [List.length_nil] at hlen
    omega
  | cons fold rest ih =>
    intro k st yAll pAll hk hlen hzero hnz
    match k, hk with
    | 1, _ =>
      rw [List.take_succ_cons, List.take_zero, List.foldl_cons, List.foldl_nil]
        at hzero
      simp only [statsLoop]
      rw [if_pos ((foldStep_betAmount_eq tps prec bf ce st fold).trans hzero)]
      rfl
    | (k' + 2), _ =>
      have hne1 : (foldStep tps prec bf ce st fold).2.2 ≠ 0 := by
        have := hnz 1 (le_refl 1) (by omega)
        rwa [List.take_succ_cons, List.take_zero, List.foldl_cons,
          List.foldl_nil] at this
      simp only [statsLoop]
      rw [if_neg fun h =>
        hne1 ((foldStep_betAmount_eq tps prec bf ce st fold).symm.trans h)]
      simp only [List.length_cons]
      have hrec := ih (k' + 1) (foldStep tps prec bf ce st fold).2
        (fold.1 ++ yAll) (fold.2 ++ pAll) (by omega)
        (by simpa [List.length_cons] using hlen)
        (by rwa [List.take_succ_cons, List.foldl_cons] at hzero)
        (by
          intro j hj1 hjk
          have := hnz (j + 1) (by omega) (by omega)
          rwa [List.take_succ_cons, List.foldl_cons] at this)
      rw [hrec]

lemma statsLoop_yPredAll_length (tps : List Int → List ℚ → ℚ)
    (prec : List Int → List Int → ℚ) (bf : ℚ) (ce : ℕ) :
    ∀ folds (st : ℚ × ℚ) (yAll : List Int) (pAll : List ℚ),
      (statsLoop tps prec bf ce folds st yAll pAll).2.2.length =
        ((folds.take (statsLoop tps prec bf ce folds st yAll pAll).1.length).map
          (fun f => f.2.length)).sum + pAll.length := by
  intro folds
  induction folds with
  | nil => intro st yAll pAll; simp [statsLoop]
  | cons fold rest ih =>
    intro st yAll pAll
    simp only [statsLoop]
    split
    · simp [List.take_succ_cons, List.length_append]
    · simp only [List.length_cons, List.take_succ_cons, List.map_cons,
        List.sum_cons]
      rw [ih (foldStep tps prec bf ce st fold).2 (fold.1 ++ yAll)
        (fold.2 ++ pAll)]
      simp [List.length_append]
      omega

/-! ## Claim theorems -/

/-- C2: for every input `X`, `test_year` and `max_day_range`,
`SeasonTimeSeriesSplit.get_n_splits` returns exactly the number of
`(train_indices, test_indices)` pairs enumerated by
`SeasonTimeSeriesSplit.split` on the same inputs (and the same error when the
season window is empty); in particular they agree whenever the season window
is non-empty. -/
theorem get_n_splits_agrees_with_split (X : List (List Int))
    (testYear maxDayRange : Int) :
    get_n_splits X testYear maxDayRange =
      (split X testYear maxDayRange).map List.length := by
  unfold get_n_splits split
  cases h : seasonIndices X testYear with
  | nil => rfl
  | cons s0 rest => simp [Except.map, countAux_eq_length]

/-- C5: if no sample's day value lies in the season window
`[365*(test_year-1), 365*test_year)`, then both `SeasonTimeSeriesSplit.split`
(upon iteration) and `SeasonTimeSeriesSplit.get_n_splits` fail — the
`season_indices[0]` access raises — rather than silently yielding nothing. -/
theorem empty_window_errors (X : List (List Int)) (testYear maxDayRange : Int)
    (h : ∀ i, i < X.length → ¬ inWindow X testYear i) :
    split X testYear maxDayRange = Except.error () ∧
    get_n_splits X testYear maxDayRange = Except.error () := by
  have hs : seasonIndices X testYear = [] := by
    rw [List.eq_nil_iff_forall_not_mem]
    intro i hi
    rcases mem_seasonIndices.1 hi with ⟨hlen, hw⟩
    exact h i hlen hw
  constructor
  · unfold split; rw [hs]
  · unfold get_n_splits; rw [hs]

/-- Witness for C5 at the concrete input `X = [[400]]`, `test_year = 1`:
day `400` lies outside `[0, 365)`, and both operations fail. -/
theorem empty_window_errors_witness :
    split [[400]] 1 6 = Except.error () ∧
    get_n_splits [[400]] 1 6 = Except.error () :=
  empty_window_errors [[400]] 1 6 (by decide)

/-- C6 (code evaluated at the failing input): with days `[0, 366]`,
`test_year = 2` and `max_day_range = 6` the season window is non-empty but the
splitter yields zero folds, and `BettingAgent.backtest` terminates normally
with `backtest_results_ = []` — there is no zero-fold check in the
orchestrator, so it does not fail fast with a descriptive error. -/
theorem backtest_zero_folds_terminates_normally :
    backtest (fun _ te => te.map (fun _ => (1 : ℚ))) [[0], [366]] [0, 0] 2 6 =
      Except.ok [] := rfl

/-- C9: `SeasonTimeSeriesSplit.split` (and `get_n_splits`) depends only on the
day column: two inputs with identical column 0 (hence the same number of
rows) produce exactly the same sequence of splits under identical
`test_year` and `max_day_range`. -/
theorem split_depends_only_on_day_column (X1 X2 : List (List Int))
    (testYear maxDayRange : Int) (h : days X1 = days X2) :
    split X1 testYear maxDayRange = split X2 testYear maxDayRange ∧
    get_n_splits X1 testYear maxDayRange = get_n_splits X2 testYear maxDayRange := by
  have hl : X1.length = X2.length := by
    rw [← days_length, ← days_length, h]
  have hs : seasonIndices X1 testYear = seasonIndices X2 testYear := by
    unfold seasonIndices; rw [hl, h]
  constructor
  · unfold split; rw [hs, h]
  · unfold get_n_splits; rw [hs, h]

/-- Witness for C9: two one-row inputs differing in their feature column but
sharing the day column produce identical splits. -/
theorem split_depends_only_on_day_column_witness :
    split [[1, 5]] 1 6 = split [[1, 7]] 1 6 ∧
    get_n_splits [[1, 5]] 1 6 = get_n_splits [[1, 7]] 1 6 :=
  split_depends_only_on_day_column [[1, 5]] [[1, 7]] 1 6 (by decide)

/-- C3: for every list of fold results and parameters `bet_factor > 1`,
`credit_exponent ≥ 0` (a `Nat` here), every statistic row emitted by
`BettingAgent.calculate_backtest_stats` satisfies the staking invariant:
its `bet_amount` does not exceed its own `capital` plus
`bet_factor ^ credit_exponent` (the credit-ceiling clamp runs on exactly that
bound after the capital update). -/
theorem bet_amount_le_credit_ceiling (tps : List Int → List ℚ → ℚ)
    (prec : List Int → List Int → ℚ) (betFactor : ℚ) (creditExponent : ℕ)
    (backtestResults : List (List Int × List ℚ)) (_hbf : 1 < betFactor) :
    ∀ row ∈ (calculate_backtest_stats tps prec backtestResults betFactor
        creditExponent).rows,
      row.betAmount ≤ row.capital + betFactor ^ creditExponent := by
  intro row hrow
  exact statsLoop_bet_le tps prec betFactor creditExponent backtestResults
    (1, 1) [] [] row hrow

unseal Rat.add Rat.mul Rat.inv Rat.sub in
/-- Witness for C3: with `bet_factor = 2`, `credit_exponent = 0` and a single
zero-bet fold, the emitted row is `(1, 0, 1, 0, 0, nan)` and its bet amount
respects the credit ceiling. -/
theorem bet_amount_le_credit_ceiling_witness :
    (⟨1, 0, 1, 0, 0, none⟩ : StatRow).betAmount ≤
      (⟨1, 0, 1, 0, 0, none⟩ : StatRow).capital + (2 : ℚ) ^ (0 : ℕ) :=
  bet_amount_le_credit_ceiling (fun _ _ => 0) (fun _ _ => 0) 2 0 [([], [])]
    (by decide) ⟨1, 0, 1, 0, 0, none⟩ (by decide)

/-- C4: if the post-clamp `bet_amount` first equals `0` while processing fold
`k` (folds numbered from 1), then `BettingAgent.calculate_backtest_stats`
emits exactly `k` statistic rows: the row of fold `k` is appended before the
`break`, and no later fold is processed, however many remain. -/
theorem ruin_truncates_statistics (tps : List Int → List ℚ → ℚ)
    (prec : List Int → List Int → ℚ) (betFactor : ℚ) (creditExponent : ℕ)
    (backtestResults : List (List Int × List ℚ)) (k : ℕ)
    (hk : 1 ≤ k) (hlen : k ≤ backtestResults.length)
    (hzero : (stateAfter tps prec betFactor creditExponent
      (backtestResults.take k)).2 = 0)
    (hnz : ∀ j, 1 ≤ j → j < k →
      (stateAfter tps prec betFactor creditExponent
        (backtestResults.take j)).2 ≠ 0) :
    (calculate_backtest_stats tps prec backtestResults betFactor
      creditExponent).rows.length = k := by
  unfold stateAfter at hzero hnz
  exact statsLoop_length_of_ruin tps prec betFactor creditExponent
    backtestResults k (1, 1) [] [] hk hlen hzero hnz

unseal Rat.add Rat.mul Rat.inv Rat.sub in
/-- Witness for C4: with `total_profit_score ≡ -2`, `bet_factor = 2`,
`credit_exponent = 0`, the first fold loses the whole stake plus credit
(`capital = -1`, `max_credit = 0`, bet clamped to `0`), so of the two folds
supplied only one row is emitted. -/
theorem ruin_truncates_statistics_witness :
    (calculate_backtest_stats (fun _ _ => -2) (fun _ _ => 0)
      [([1], [1]), ([1], [1])] 2 0).rows.length = 1 :=
  ruin_truncates_statistics (fun _ _ => -2) (fun _ _ => 0) 2 0
    [([1], [1]), ([1], [1])] 1 (by decide) (by decide) (by decide)
    (fun j h1 h2 => absurd (Nat.lt_of_lt_of_le h2 h1) (Nat.lt_irrefl j))

/-- C10: the division producing `profit_per_bet_` is unguarded: its divisor
is the length of the concatenated prediction array `y_pred_all`, which is `0`
when `calculate_backtest_stats` runs on an empty `backtest_results_` list
(a NumPy division by zero), and positive whenever at least one processed fold
(one within the emitted rows) carries at least one prediction. -/
theorem profit_per_bet_divisor_unguarded (tps : List Int → List ℚ → ℚ)
    (prec : List Int → List Int → ℚ) (betFactor : ℚ) (creditExponent : ℕ) :
    (calculate_backtest_stats tps prec [] betFactor
        creditExponent).yPredAll.length = 0 ∧
    (∀ backtestResults,
      (calculate_backtest_stats tps prec backtestResults betFactor
          creditExponent).profitPerBet =
        tps (calculate_backtest_stats tps prec backtestResults betFactor
            creditExponent).yTestAll
          (calculate_backtest_stats tps prec backtestResults betFactor
            creditExponent).yPredAll /
          (((calculate_backtest_stats tps prec backtestResults betFactor
            creditExponent).yPredAll.length : ℚ))) ∧
    ∀ backtestResults (f : List Int × List ℚ),
      f ∈ backtestResults.take
        (calculate_backtest_stats tps prec backtestResults betFactor
          creditExponent).rows.length →
      f.2 ≠ [] →
      0 < (calculate_backtest_stats tps prec backtestResults betFactor
        creditExponent).yPredAll.length := by
  refine ⟨rfl, fun _ => rfl, ?_⟩
  intro backtestResults f hf hne
  have hlen := statsLoop_yPredAll_length tps prec betFactor creditExponent
    backtestResults (1, 1) [] []
  have hcalc : (calculate_backtest_stats tps prec backtestResults betFactor
      creditExponent).yPredAll.length =
      ((backtestResults.take (calculate_backtest_stats tps prec
        backtestResults betFactor creditExponent).rows.length).map
        (fun f => f.2.length)).sum + ([] : List ℚ).length := hlen
  have hmem : f.2.length ∈ (backtestResults.take
      (calculate_backtest_stats tps prec backtestResults betFactor
        creditExponent).rows.length).map (fun f => f.2.length) :=
    List.mem_map_of_mem _ hf
  have hle := List.single_le_sum (fun x _ => Nat.zero_le x) _ hmem
  have hpos : 0 < f.2.length := List.length_pos.2 hne
  rw [hcalc]
  simp only [List.length_nil]
  omega

unseal Rat.add Rat.mul Rat.inv Rat.sub in
/-- Witness for C10: the zero-divisor case on the empty fold list, and the
positive-divisor case for a single fold with one prediction. -/
theorem profit_per_bet_divisor_unguarded_witness :
    (calculate_backtest_stats (fun _ _ => 0) (fun _ _ => 0) [] 2 0).yPredAll.length = 0 ∧
    0 < (calculate_backtest_stats (fun _ _ => 0) (fun _ _ => 0)
          [([1], [1])] 2 0).yPredAll.length :=
  ⟨(profit_per_bet_divisor_unguarded (fun _ _ => 0) (fun _ _ => 0) 2 0).1,
    (profit_per_bet_divisor_unguarded (fun _ _ => 0) (fun _ _ => 0) 2 0).2.2
      [([1], [1])] ([1], [1]) (by decide) (by decide)⟩

lemma splitAux_chain (ds : List Int) (mdr : Int) :
    ∀ inds startInd, List.Pairwise (· < ·) inds →
      (∀ i ∈ inds, startInd ≤ i) →
      List.Chain' (fun f g => f.1 ++ f.2 = g.1)
        (splitAux ds mdr inds startInd) ∧
      ∀ f ∈ (splitAux ds mdr inds startInd).head?, f.1 = List.range startInd := by
  intro inds
  induction inds with
  | nil =>
    intro startInd _ _
    exact ⟨List.chain'_nil, by simp [splitAux]⟩
  | cons i rest ih =>
    intro startInd hpw hlb
    rcases List.pairwise_cons.1 hpw with ⟨hi, hrest⟩
    have hile : ∀ k ∈ rest, i ≤ k := fun k hk => le_of_lt (hi k hk)
    have hsi : startInd ≤ i := hlb i (List.mem_cons_self i rest)
    by_cases hif : mdr ≤ ds.getD i 0 - ds.getD startInd 0
    · have heq : splitAux ds mdr (i :: rest) startInd =
          (List.range startInd,
            (List.range (i - startInd)).map (fun k => k + startInd)) ::
            splitAux ds mdr rest i := by
        rw [splitAux, if_pos hif]
      rcases ih i hrest hile with ⟨hch, hhd⟩
      have hcat : List.range startInd ++
          (List.range (i - startInd)).map (fun k => k + startInd) =
          List.range i := by
        have h1 : startInd + (i - startInd) = i := Nat.add_sub_cancel' hsi
        conv_rhs => rw [← h1, List.range_add]
        congr 1
        exact List.map_congr_left (fun x _ => Nat.add_comm x startInd)
      constructor
      · rw [heq]
        refine List.chain'_cons'.2 ⟨?_, hch⟩
        intro g hg
        rw [hhd g hg]
        exact hcat
      · rw [heq]
        intro f hf
        simp only [List.head?_cons, Option.mem_def, Option.some.injEq] at hf
        rw [← hf]
    · have heq : splitAux ds mdr (i :: rest) startInd =
          splitAux ds mdr rest startInd := by
        rw [splitAux, if_neg hif]
      rw [heq]
      exact ih startInd hrest (fun k hk => hlb k (List.mem_cons_of_mem _ hk))

/-- C7: the folds yielded by `SeasonTimeSeriesSplit.split` form an expanding
window: for every consecutive pair of folds, the earlier fold's
`train_indices` concatenated with its `test_indices` is exactly the later
fold's `train_indices`; hence each `train_indices` is a prefix of the next
one and the train sizes are monotonically non-decreasing. -/
theorem split_expanding_window (X : List (List Int)) (testYear maxDayRange : Int)
    (folds : List (List Nat × List Nat))
    (hok : split X testYear maxDayRange = Except.ok folds) :
    List.Chain' (fun f g => f.1 ++ f.2 = g.1 ∧ f.1 <+: g.1 ∧
      f.1.length ≤ g.1.length) folds := by
  unfold split at hok
  cases h : seasonIndices X testYear with
  | nil => rw [h] at hok; exact absurd hok (by simp)
  | cons s0 rest =>
    rw [h] at hok
    have hpw : List.Pairwise (· < ·) (s0 :: rest) :=
      h ▸ seasonIndices_sorted X testYear
    have hlb : ∀ i ∈ s0 :: rest, s0 ≤ i := by
      intro i hi
      rcases List.mem_cons.1 hi with rfl | hi'
      · exact le_refl i
      · exact le_of_lt ((List.pairwise_cons.1 hpw).1 i hi')
    have hch :=
      (splitAux_chain (days X) maxDayRange (s0 :: rest) s0 hpw hlb).1
    injection hok with hok'
    rw [← hok']
    refine hch.imp ?_
    intro f g hab
    refine ⟨hab, ⟨f.2, hab⟩, ?_⟩
    rw [← hab, List.length_append]
    exact Nat.le_add_right _ _

/-- Witness for C7 at days `[0, 10, 20]`, `test_year = 1`,
`max_day_range = 6`: the two yielded folds `([], [0])` and `([0], [1])`
chain as an expanding window. -/
theorem split_expanding_window_witness :
    List.Chain' (fun f g => f.1 ++ f.2 = g.1 ∧ f.1 <+: g.1 ∧
      f.1.length ≤ g.1.length)
      ([([], [0]), ([0], [1])] : List (List Nat × List Nat)) :=
  split_expanding_window [[0], [10], [20]] 1 6 [([], [0]), ([0], [1])] rfl

lemma mem_of_mem_getLastQ {α : Type} {l : List α} {x : α}
    (hx : x ∈ l.getLast?) : x ∈ l := by
  rcases List.mem_getLast?_eq_getLast hx with ⟨h, rfl⟩
  exact List.getLast_mem h

lemma filter_range_chain_succ (p : ℕ → Bool) :
    ∀ n : ℕ,
      (∀ i k j, i < k → k < j → j < n → p i = true → p j = true →
        p k = true) →
      List.Chain' (fun a b => b = a + 1) ((List.range n).filter p) ∧
      ∀ x ∈ ((List.range n).filter p).getLast?, ∀ k, x < k → k < n →
        p k = false := by
  intro n
  induction n with
  | zero => intro _; simp
  | succ m ih =>
    intro hconv
    have hconv' : ∀ i k j, i < k → k < j → j < m → p i = true →
        p j = true → p k = true :=
      fun i k j h1 h2 h3 hi hj => hconv i k j h1 h2 (Nat.lt_succ_of_lt h3) hi hj
    rcases ih hconv' with ⟨hch, hlast⟩
    rw [List.range_succ, List.filter_append]
    cases hpn : p m with
    | false =>
      have hfil : List.filter p [m] = [] := by simp [hpn]
      rw [hfil, List.append_nil]
      refine ⟨hch, ?_⟩
      intro x hx k hxk hkm
      rcases Nat.lt_succ_iff_lt_or_eq.1 hkm with hkm' | rfl
      · exact hlast x hx k hxk hkm'
      · exact hpn
    | true =>
      have hfil : List.filter p [m] = [m] := by simp [hpn]
      rw [hfil]
      constructor
      · rw [List.chain'_append]
        refine ⟨hch, List.chain'_singleton m, ?_⟩
        intro x hx y hy
        simp only [List.head?_cons, Option.mem_def, Option.some.injEq] at hy
        subst hy
        have hxmem : x ∈ (List.range m).filter p := mem_of_mem_getLastQ hx
        rcases List.mem_filter.1 hxmem with ⟨hxr, hpx⟩
        have hxm : x < m := List.mem_range.1 hxr
        by_contra hne
        have hx1m : x + 1 < m := by omega
        have hfalse := hlast x hx (x + 1) (Nat.lt_succ_self x) hx1m
        have htrue := hconv x (x + 1) m (Nat.lt_succ_self x) hx1m
          (Nat.lt_succ_self m) hpx hpn
        rw [htrue] at hfalse
        exact Bool.noConfusion hfalse
      · rw [List.getLast?_concat]
        intro x hx k h1 h2
        simp only [Option.mem_def, Option.some.injEq] at hx
        subst hx
        exact absurd h2 (by omega)

lemma seasonIndices_chain_succ (X : List (List Int)) (testYear : Int)
    (hmono : List.Chain' (· ≤ ·) (days X)) :
    List.Chain' (fun a b => b = a + 1) (seasonIndices X testYear) := by
  have hmono' := chain_le_getD hmono
  unfold seasonIndices
  refine (filter_range_chain_succ _ X.length ?_).1
  intro i k j h1 h2 h3 hi hj
  simp only [Bool.and_eq_true, decide_eq_true_eq] at hi hj ⊢
  have hk : k < (days X).length := by rw [days_length]; omega
  have hj' : j < (days X).length := by rw [days_length]; omega
  exact ⟨le_trans hi.1 (hmono' i k (le_of_lt h1) hk),
    lt_of_le_of_lt (hmono' k j (le_of_lt h2) hj') hj.2⟩

lemma splitAux_nonpos (ds : List Int) (mdr : Int) (hmdr : mdr ≤ 0)
    (hmono : ∀ i j, i ≤ j → j < ds.length → ds.getD i 0 ≤ ds.getD j 0) :
    ∀ inds startInd,
      List.Pairwise (· < ·) inds →
      (∀ i ∈ inds, i < ds.length) →
      List.Chain' (fun a b => b = a + 1) (startInd :: inds) →
      (splitAux ds mdr inds startInd).length = inds.length ∧
      ∀ f ∈ splitAux ds mdr inds startInd, f.2.length = 1 := by
  intro inds
  induction inds with
  | nil => intro startInd _ _ _; simp [splitAux]
  | cons i rest ih =>
    intro startInd hpw hbound hchain
    have hisucc : i = startInd + 1 := (List.chain'_cons.1 hchain).1
    have hilen : i < ds.length := hbound i (List.mem_cons_self i rest)
    have hsle : startInd ≤ i := by omega
    have htrig : mdr ≤ ds.getD i 0 - ds.getD startInd 0 := by
      have := hmono startInd i hsle hilen
      omega
    rw [splitAux, if_pos htrig]
    rcases ih i (List.pairwise_cons.1 hpw).2
      (fun k hk => hbound k (List.mem_cons_of_mem _ hk))
      (List.chain'_cons.1 hchain).2 with ⟨hlen, hall⟩
    constructor
    · simp [hlen]
    · intro f hf
      rcases List.mem_cons.1 hf with rfl | hf'
      · simp [hisucc, Nat.add_sub_cancel_left]
      · exact hall f hf'

/-- C8 (amended): for every input `X` with non-decreasing day column whose
season window is non-empty, and every `max_day_range ≤ 0`, the parameter is
not rejected and `split` yields exactly one fold per season index — each
index becomes the next anchor immediately — but the first yielded fold has an
*empty* `test_indices` (`np.arange(s0, s0)`), and every subsequent fold has a
`test_indices` of size 1. -/
theorem split_nonpos_mdr_one_fold_per_index (X : List (List Int))
    (testYear maxDayRange : Int)
    (hmono : List.Chain' (· ≤ ·) (days X)) (hmdr : maxDayRange ≤ 0)
    (hne : seasonIndices X testYear ≠ []) :
    (split X testYear maxDayRange).map List.length =
      Except.ok (seasonIndices X testYear).length ∧
    ∀ folds, split X testYear maxDayRange = Except.ok folds →
      (∀ f ∈ folds.head?, f.2 = ([] : List Nat)) ∧
      ∀ f ∈ folds.tail, f.2.length = 1 := by
  cases h : seasonIndices X testYear with
  | nil => exact absurd h hne
  | cons s0 rest =>
    have htrig0 : maxDayRange ≤ (days X).getD s0 0 - (days X).getD s0 0 := by
      rw [sub_self]; exact hmdr
    have hsplit : split X testYear maxDayRange =
        Except.ok ((List.range s0, ([] : List Nat)) ::
          splitAux (days X) maxDayRange rest s0) := by
      simp only [split, h]
      rw [splitAux, if_pos htrig0, Nat.sub_self, List.range_zero,
        List.map_nil]
    have hpw : List.Pairwise (· < ·) (s0 :: rest) :=
      h ▸ seasonIndices_sorted X testYear
    have hbound : ∀ i ∈ s0 :: rest, i < (days X).length := by
      intro i hi
      rw [days_length]
      exact (mem_seasonIndices.1 (h ▸ hi)).1
    have hchain : List.Chain' (fun a b => b = a + 1) (s0 :: rest) :=
      h ▸ seasonIndices_chain_succ X testYear hmono
    rcases splitAux_nonpos (days X) maxDayRange hmdr (chain_le_getD hmono)
      rest s0 (List.pairwise_cons.1 hpw).2
      (fun k hk => hbound k (List.mem_cons_of_mem _ hk)) hchain
      with ⟨hlen, hall⟩
    constructor
    · rw [hsplit]
      simp [Except.map, hlen]
    · intro folds hfolds
      rw [hsplit] at hfolds
      injection hfolds with hfolds'
      rw [← hfolds']
      constructor
      · intro f hf
        simp only [List.head?_cons, Option.mem_def, Option.some.injEq] at hf
        rw [← hf]
      · intro f hf
        exact hall f hf

/-- Counterexample to C8 as stated: at `X = [[0]]` (non-empty season window
for `test_year = 1`) with `max_day_range = 0`, the single yielded fold —
one per season index — has a `test_indices` of size 0, not 1: the first
season index triggers immediately with `test = np.arange(s0, s0)`. -/
theorem split_nonpos_mdr_counterexample :
    split [[0]] 1 0 = Except.ok [(([] : List Nat), ([] : List Nat))] ∧
    ¬ (([] : List Nat).length = 1) :=
  ⟨rfl, by decide⟩

/-- Witness for C8 (amended) at days `[0, 3, 7]`, `test_year = 1`,
`max_day_range = 0`: three season indices yield three folds. -/
theorem split_nonpos_mdr_one_fold_per_index_witness :
    (split [[0], [3], [7]] 1 0).map List.length =
      Except.ok (seasonIndices [[0], [3], [7]] 1).length :=
  (split_nonpos_mdr_one_fold_per_index [[0], [3], [7]] 1 0
    (by simp [days, List.chain'_cons]) (by decide) (by decide)).1

lemma splitAux_sep (ds : List Int) (mdr : Int) (lo hi : Int)
    (hmono : ∀ i j, i ≤ j → j < ds.length → ds.getD i 0 ≤ ds.getD j 0)
    (hmdr : 1 ≤ mdr) :
    ∀ inds startInd,
      List.Pairwise (· < ·) inds →
      (∀ i ∈ inds, i < ds.length ∧ lo ≤ ds.getD i 0 ∧ ds.getD i 0 < hi) →
      (∀ i ∈ inds, startInd ≤ i) →
      startInd < ds.length → lo ≤ ds.getD startInd 0 →
      ds.getD startInd 0 < hi →
      (∀ j, j < startInd → ds.getD j 0 < ds.getD startInd 0) →
      (∀ j, startInd < j → j < ds.length → lo ≤ ds.getD j 0 →
        ds.getD j 0 < hi →
        j ∈ inds ∨ ds.getD j 0 - ds.getD startInd 0 < mdr) →
      ∀ fold ∈ splitAux ds mdr inds startInd, ∀ t ∈ fold.1, ∀ u ∈ fold.2,
        t < u ∧ ds.getD t 0 < ds.getD u 0 := by
  intro inds
  induction inds with
  | nil =>
    intro startInd _ _ _ _ _ _ _ _ fold hfold
    simp [splitAux] at hfold
  | cons i rest ih =>
    intro startInd hpw hwin hlb hslen hslo hshi hgood hcomp
    rcases List.pairwise_cons.1 hpw with ⟨hirest, hrest⟩
    rcases hwin i (List.mem_cons_self i rest) with ⟨hilen, hilo, hihi⟩
    have hsi : startInd ≤ i := hlb i (List.mem_cons_self i rest)
    by_cases hif : mdr ≤ ds.getD i 0 - ds.getD startInd 0
    · -- the gap condition fires: a fold is emitted and the anchor moves to i
      have hlt : ds.getD startInd 0 < ds.getD i 0 := by omega
      rw [splitAux, if_pos hif]
      intro fold hfold
      rcases List.mem_cons.1 hfold with rfl | hfold'
      · intro t ht u hu
        have htlt : t < startInd := List.mem_range.1 ht
        rcases List.mem_map.1 hu with ⟨k, hk, rfl⟩
        have hklt : k < i - startInd := List.mem_range.1 hk
        have hu1 : startInd ≤ k + startInd := Nat.le_add_left _ _
        refine ⟨by omega, ?_⟩
        calc ds.getD t 0 < ds.getD startInd 0 := hgood t htlt
          _ ≤ ds.getD (k + startInd) 0 :=
            hmono startInd (k + startInd) hu1 (by omega)
      · refine ih i hrest
          (fun k hk => hwin k (List.mem_cons_of_mem _ hk))
          (fun k hk => le_of_lt (hirest k hk))
          hilen hilo hihi ?_ ?_ fold hfold'
        · intro j hj
          rcases Nat.lt_or_ge j startInd with hjs | hjs
          · exact lt_trans (hgood j hjs) hlt
          · rcases Nat.eq_or_lt_of_le hjs with rfl | hjs'
            · exact hlt
            · have hjlen : j < ds.length := by omega
              have hle : ds.getD j 0 ≤ ds.getD i 0 :=
                hmono j i (le_of_lt hj) hilen
              rcases lt_or_eq_of_le hle with hcase | hcase
              · exact hcase
              · exfalso
                have hjlo : lo ≤ ds.getD j 0 := by omega
                have hjhi : ds.getD j 0 < hi := by omega
                rcases hcomp j hjs' hjlen hjlo hjhi with hmem | hsmall
                · rcases List.mem_cons.1 hmem with heq | hmem'
                  · omega
                  · have := hirest j hmem'
                    omega
                · omega
        · intro j hij hjlen hjlo hjhi
          have hsj : startInd < j := by omega
          rcases hcomp j hsj hjlen hjlo hjhi with hmem | hsmall
          · rcases List.mem_cons.1 hmem with heq | hmem'
            · omega
            · exact Or.inl hmem'
          · right
            have := hmono startInd i hsi hilen
            omega
    · -- the gap condition does not fire: i is skipped, the anchor stays
      rw [splitAux, if_neg hif]
      refine ih startInd hrest
        (fun k hk => hwin k (List.mem_cons_of_mem _ hk))
        (fun k hk => hlb k (List.mem_cons_of_mem _ hk))
        hslen hslo hshi hgood ?_
      intro j hsj hjlen hjlo hjhi
      rcases hcomp j hsj hjlen hjlo hjhi with hmem | hsmall
      · rcases List.mem_cons.1 hmem with heq | hmem'
        · right
          subst heq
          omega
        · exact Or.inl hmem'
      · exact Or.inr hsmall

/-- C1 (amended): for every input `X` whose day column is non-decreasing and
every `max_day_range ≥ 1`, every pair `(train_indices, test_indices)` yielded
by `SeasonTimeSeriesSplit.split` satisfies: every train index is strictly
smaller than every test index (no overlap), and its day value is strictly
less than every test day value — in particular strictly less than the
smallest day among `test_indices` (no look-ahead leakage).  For
`max_day_range ≤ 0` the strict day inequality can fail (see the
counterexample), which is why the amendment restricts to positive
`max_day_range`. -/
theorem split_no_lookahead (X : List (List Int)) (testYear maxDayRange : Int)
    (hmono : List.Chain' (· ≤ ·) (days X)) (hmdr : 1 ≤ maxDayRange)
    (folds : List (List Nat × List Nat))
    (hok : split X testYear maxDayRange = Except.ok folds) :
    ∀ fold ∈ folds, ∀ t ∈ fold.1, ∀ u ∈ fold.2,
      t < u ∧ (days X).getD t 0 < (days X).getD u 0 := by
  unfold split at hok
  cases h : seasonIndices X testYear with
  | nil => rw [h] at hok; exact absurd hok (by simp)
  | cons s0 rest =>
    rw [h] at hok
    injection hok with hok'
    rw [← hok']
    have hpw : List.Pairwise (· < ·) (s0 :: rest) :=
      h ▸ seasonIndices_sorted X testYear
    have hwin : ∀ i ∈ s0 :: rest, i < (days X).length ∧
        365 * (testYear - 1) ≤ (days X).getD i 0 ∧
        (days X).getD i 0 < 365 * testYear := by
      intro i hi
      rcases mem_seasonIndices.1 (h ▸ hi) with ⟨hlen, hw⟩
      exact ⟨by rw [days_length]; exact hlen, hw.1, hw.2⟩
    have hlb : ∀ i ∈ s0 :: rest, s0 ≤ i := by
      intro i hi
      rcases List.mem_cons.1 hi with rfl | hi'
      · exact le_refl i
      · exact le_of_lt ((List.pairwise_cons.1 hpw).1 i hi')
    rcases hwin s0 (List.mem_cons_self s0 rest) with ⟨hs0len, hs0lo, hs0hi⟩
    have hmono' := chain_le_getD hmono
    have hgood : ∀ j, j < s0 → (days X).getD j 0 < (days X).getD s0 0 := by
      intro j hj
      have hle := hmono' j s0 (le_of_lt hj) hs0len
      rcases lt_or_eq_of_le hle with hlt | heq
      · exact hlt
      · exfalso
        have hjmem : j ∈ seasonIndices X testYear := by
          apply mem_seasonIndices.2
          refine ⟨?_, ?_, ?_⟩
          · rw [← days_length]; omega
          · omega
          · omega
        rw [h] at hjmem
        rcases List.mem_cons.1 hjmem with heq' | hmem'
        · omega
        · have := (List.pairwise_cons.1 hpw).1 j hmem'
          omega
    have hcomp : ∀ j, s0 < j → j < (days X).length →
        365 * (testYear - 1) ≤ (days X).getD j 0 →
        (days X).getD j 0 < 365 * testYear →
        j ∈ s0 :: rest ∨
          (days X).getD j 0 - (days X).getD s0 0 < maxDayRange := by
      intro j hj hjlen hjlo hjhi
      left
      rw [← h]
      exact mem_seasonIndices.2 ⟨by rw [← days_length]; exact hjlen, hjlo, hjhi⟩
    exact splitAux_sep (days X) maxDayRange (365 * (testYear - 1))
      (365 * testYear) hmono' hmdr (s0 :: rest) s0 hpw hwin hlb hs0len hs0lo
      hs0hi hgood hcomp

/-- Counterexample to C1 as stated: with the non-decreasing day column
`[5, 5, 5]`, `test_year = 1` and `max_day_range = 0` (a parameter value the
splitter accepts), the third yielded fold is `([0], [1])`, whose train index
`0` has day `5` — not strictly less than the test day `5`. -/
theorem split_strict_separation_counterexample :
    List.Chain' (· ≤ ·) (days [[5], [5], [5]]) ∧
    split [[5], [5], [5]] 1 0 =
      Except.ok [(([] : List Nat), ([] : List Nat)), ([], [0]), ([0], [1])] ∧
    ¬ ((days [[5], [5], [5]]).getD 0 0 < (days [[5], [5], [5]]).getD 1 0) :=
  ⟨by simp [days, List.chain'_cons], rfl, by decide⟩

/-- Witness for C1 (amended) at days `[0, 10, 20]`, `test_year = 1`,
`max_day_range = 6`: in the yielded fold `([0], [1])`, the train index `0`
precedes the test index `1` and its day is strictly smaller. -/
theorem split_no_lookahead_witness :
    (0 : ℕ) < 1 ∧
    (days [[0], [10], [20]]).getD 0 0 < (days [[0], [10], [20]]).getD 1 0 :=
  split_no_lookahead [[0], [10], [20]] 1 6 (by simp [days, List.chain'_cons])
    (by decide) [([], [0]), ([0], [1])] rfl ([0], [1]) (by decide) 0
    (by decide) 1 (by decide)

end SportsBet
